import Mathlib

/-!
# Shallow embedding of `brace/policy.py` (BRACE supplementary)

The repository consists of a single PyTorch module, `DualHeadActorCritic`:
a shared backbone `Sequential(Linear(obs_dim, hidden), ReLU(), Linear(hidden, hidden), ReLU())`
followed by two independent heads `gamma_head = Linear(hidden, 1)` and
`value_head = Linear(hidden, 1)`; `forward` computes
`z = backbone(obs)`, `gamma = sigmoid(gamma_head(z))`, `value = value_head(z)`
and returns the pair `(gamma, value)`.

We embed tensors of shape (B, d) as `List (List ℝ)` (B rows, each of
length d) and real arithmetic exactly over `ℝ`.  `nn.Linear` carries its
`in_features` / `out_features` and its weight matrix and bias vector; applying
it to a row whose length differs from `in_features` is the shape error the
underlying linear-algebra primitive raises in the source, which we embed as
`Option.none`.  Batched application is row-by-row, exactly as a matrix
product `obs @ W.T + b` acts on the rows of `obs`.
-/

noncomputable section

/-- Elementwise `torch.nn.ReLU`: `max(0, x)`. -/
def relu (x : ℝ) : ℝ := max 0 x

/-- Elementwise `torch.sigmoid`: `1 / (1 + exp (-x))`. -/
def sigmoid (x : ℝ) : ℝ := 1 / (1 + Real.exp (-x))

/-- Dot product of two real lists (the inner product in `obs @ W.T`). -/
def dot (w x : List ℝ) : ℝ := (List.zipWith (fun a b => a * b) w x).sum

/-- Layer `torch.nn.Linear`: `in_features`, `out_features`, a weight matrix
(`outF` rows of length `inF`) and a bias vector (length `outF`). -/
structure Linear where
  inF : ℕ
  outF : ℕ
  weight : List (List ℝ)
  bias : List ℝ

/-- Well-formedness of a `Linear` layer, as `nn.Linear(inF, outF)`
guarantees by construction: the weight matrix is `outF × inF` and the bias
has length `outF`. -/
def Linear.WF (L : Linear) : Prop :=
  L.weight.length = L.outF ∧ (∀ w ∈ L.weight, w.length = L.inF) ∧
    L.bias.length = L.outF

/-- Apply a linear layer to a single row: `y_j = ⟨w_j, x⟩ + b_j`.
A row whose length differs from `in_features` is the shape error raised by
the underlying matrix multiply, embedded as `none`. -/
def Linear.applyRow (L : Linear) (x : List ℝ) : Option (List ℝ) :=
  if x.length = L.inF then
    some (List.zipWith (fun w b => dot w x + b) L.weight L.bias)
  else none

/-- Apply a linear layer to a batch, row by row — exactly how
`obs @ W.T + b` acts on the rows of a (B, inF) tensor. -/
def Linear.applyBatch (L : Linear) : List (List ℝ) → Option (List (List ℝ))
  | [] => some []
  | x :: xs =>
    match L.applyRow x, L.applyBatch xs with
    | some y, some ys => some (y :: ys)
    | _, _ => none

/-- Elementwise application of a scalar function to a (B, d) tensor
(`ReLU()`, `torch.sigmoid`). -/
def mapTensor (f : ℝ → ℝ) (X : List (List ℝ)) : List (List ℝ) :=
  X.map (List.map f)

/-- The `DualHeadActorCritic` module: construction dimensions and the four
parameterised layers (`backbone[0]`, `backbone[2]`, `gamma_head`,
`value_head`). -/
structure DualHeadActorCritic where
  obs_dim : ℕ
  hidden : ℕ
  layer1 : Linear
  layer2 : Linear
  gamma_head : Linear
  value_head : Linear

namespace DualHeadActorCritic

/-- Well-formedness as `__init__` establishes it:
`layer1 = Linear(obs_dim, hidden)`, `layer2 = Linear(hidden, hidden)`,
`gamma_head = Linear(hidden, 1)`, `value_head = Linear(hidden, 1)`. -/
def WF (net : DualHeadActorCritic) : Prop :=
  net.layer1.WF ∧ net.layer1.inF = net.obs_dim ∧ net.layer1.outF = net.hidden ∧
  net.layer2.WF ∧ net.layer2.inF = net.hidden ∧ net.layer2.outF = net.hidden ∧
  net.gamma_head.WF ∧ net.gamma_head.inF = net.hidden ∧ net.gamma_head.outF = 1 ∧
  net.value_head.WF ∧ net.value_head.inF = net.hidden ∧ net.value_head.outF = 1

/-- The backbone `self.backbone(obs)`: `Sequential(Linear, ReLU, Linear, ReLU)`. -/
def backbone (net : DualHeadActorCritic) (X : List (List ℝ)) :
    Option (List (List ℝ)) :=
  match net.layer1.applyBatch X with
  | none => none
  | some a =>
    match net.layer2.applyBatch (mapTensor relu a) with
    | none => none
    | some b => some (mapTensor relu b)

/-- Method `forward`: `z = backbone(obs)`;
`gamma = torch.sigmoid(gamma_head(z))`; `value = value_head(z)`;
`return gamma, value`. -/
def forward (net : DualHeadActorCritic) (obs : List (List ℝ)) :
    Option (List (List ℝ) × List (List ℝ)) :=
  match net.backbone obs with
  | none => none
  | some z =>
    match net.gamma_head.applyBatch z, net.value_head.applyBatch z with
    | some g, some v => some (mapTensor sigmoid g, v)
    | _, _ => none

/-- The `forward` method viewed as a state transformer on the module
instance: the method body contains no assignment to `self`, so the instance
after the call is the instance before it, paired with the returned value. -/
def forwardCall (net : DualHeadActorCritic) (obs : List (List ℝ)) :
    DualHeadActorCritic × Option (List (List ℝ) × List (List ℝ)) :=
  (net, net.forward obs)

end DualHeadActorCritic

/-- Reference composition, following the specification text: apply backbone
layer 1, rectified-linear activation, backbone layer 2, rectified-linear
activation, to produce a shared hidden representation `z`; apply the γ-head
linear layer then an elementwise sigmoid to produce γ; apply the value-head
linear layer (no activation) to produce V, independently from the same `z`. -/
def referenceForward (net : DualHeadActorCritic) (obs : List (List ℝ)) :
    Option (List (List ℝ) × List (List ℝ)) :=
  match net.layer1.applyBatch obs with
  | none => none
  | some a1 =>
    match net.layer2.applyBatch (mapTensor relu a1) with
    | none => none
    | some a2 =>
      let z := mapTensor relu a2
      match net.gamma_head.applyBatch z, net.value_head.applyBatch z with
      | some g, some v => some (mapTensor sigmoid g, v)
      | _, _ => none

/-- A concrete all-zero `Linear(1, 1)` layer, for witnesses. -/
def zeroLinear : Linear := ⟨1, 1, [[(0 : ℝ)]], [(0 : ℝ)]⟩

/-- A concrete network with `obs_dim = 1`, `hidden = 1` and all parameters
zero, for witnesses. -/
def netZ : DualHeadActorCritic := ⟨1, 1, zeroLinear, zeroLinear, zeroLinear, zeroLinear⟩

/-- Like `netZ` but with value-head bias 1: agrees with `netZ` on the
backbone and the γ-head, differs on the value head. -/
def netV : DualHeadActorCritic :=
  ⟨1, 1, zeroLinear, zeroLinear, zeroLinear, ⟨1, 1, [[(0 : ℝ)]], [(1 : ℝ)]⟩⟩

theorem netZ_wf : netZ.WF := by
  refine ⟨⟨rfl, ?_, rfl⟩, rfl, rfl, ⟨rfl, ?_, rfl⟩, rfl, rfl,
    ⟨rfl, ?_, rfl⟩, rfl, rfl, ⟨rfl, ?_, rfl⟩, rfl, rfl⟩ <;>
  · intro w hw
    simp only [netZ, zeroLinear, List.mem_singleton] at hw
    simp [hw, netZ, zeroLinear]

theorem forward_netZ_eval :
    netZ.forward [[(0 : ℝ)]] = some ([[sigmoid 0]], [[(0 : ℝ)]]) := by
  simp [DualHeadActorCritic.forward, DualHeadActorCritic.backbone,
    Linear.applyBatch, Linear.applyRow, dot, mapTensor, relu, netZ, zeroLinear]

/-! ## Supporting lemmas -/

theorem Linear.applyRow_isSome_iff (L : Linear) (x : List ℝ) :
    (L.applyRow x).isSome ↔ x.length = L.inF := by
  unfold Linear.applyRow
  by_cases h : x.length = L.inF <;> simp [h]

theorem Linear.applyRow_eq_none_iff (L : Linear) (x : List ℝ) :
    L.applyRow x = none ↔ x.length ≠ L.inF := by
  unfold Linear.applyRow
  by_cases h : x.length = L.inF <;> simp [h]

theorem Linear.applyRow_length {L : Linear} {x y : List ℝ} (hWF : L.WF)
    (h : L.applyRow x = some y) : y.length = L.outF := by
  unfold Linear.applyRow at h
  by_cases hx : x.length = L.inF
  · simp only [hx, if_true, Option.some.injEq] at h
    subst h
    simp [List.length_zipWith, hWF.1, hWF.2.2]
  · simp [hx] at h

theorem Linear.applyBatch_nil (L : Linear) : L.applyBatch [] = some [] := rfl

theorem Linear.applyBatch_cons (L : Linear) (x : List ℝ) (xs : List (List ℝ)) :
    L.applyBatch (x :: xs) =
      match L.applyRow x, L.applyBatch xs with
      | some y, some ys => some (y :: ys)
      | _, _ => none := rfl

theorem Linear.applyBatch_cons_eq_some {L : Linear} {x : List ℝ}
    {xs : List (List ℝ)} {Y : List (List ℝ)} :
    L.applyBatch (x :: xs) = some Y ↔
      ∃ y ys, L.applyRow x = some y ∧ L.applyBatch xs = some ys ∧ Y = y :: ys := by
  rw [Linear.applyBatch_cons]
  cases hr : L.applyRow x <;> cases hb : L.applyBatch xs <;>
    simp [eq_comm]

theorem Linear.applyBatch_singleton {L : Linear} {x y : List ℝ}
    (h : L.applyRow x = some y) : L.applyBatch [x] = some [y] := by
  rw [Linear.applyBatch_cons_eq_some]
  exact ⟨y, [], h, rfl, rfl⟩

theorem Linear.applyBatch_length {L : Linear} :
    ∀ {X Y : List (List ℝ)}, L.applyBatch X = some Y → Y.length = X.length := by
  intro X
  induction X with
  | nil =>
    intro Y h
    rw [Linear.applyBatch_nil, Option.some.injEq] at h
    simp [← h]
  | cons x xs ih =>
    intro Y h
    rw [Linear.applyBatch_cons_eq_some] at h
    obtain ⟨y, ys, _, hys, rfl⟩ := h
    simp [ih hys]

theorem Linear.applyBatch_isSome_iff (L : Linear) :
    ∀ X : List (List ℝ),
      (L.applyBatch X).isSome ↔ ∀ x ∈ X, x.length = L.inF := by
  intro X
  induction X with
  | nil => simp [Linear.applyBatch_nil]
  | cons x xs ih =>
    rw [Linear.applyBatch_cons]
    have hx := Linear.applyRow_isSome_iff L x
    cases hr : L.applyRow x <;> cases hb : L.applyBatch xs <;>
      rw [hr] at hx <;> rw [hb] at ih <;> simp_all

theorem Linear.applyBatch_rows_length {L : Linear} (hWF : L.WF) :
    ∀ {X Y : List (List ℝ)}, L.applyBatch X = some Y →
      ∀ y ∈ Y, y.length = L.outF := by
  intro X
  induction X with
  | nil =>
    intro Y h
    rw [Linear.applyBatch_nil, Option.some.injEq] at h
    simp [← h]
  | cons x xs ih =>
    intro Y h
    rw [Linear.applyBatch_cons_eq_some] at h
    obtain ⟨y, ys, hy, hys, rfl⟩ := h
    intro r hr
    rcases List.mem_cons.mp hr with h1 | h2
    · exact h1 ▸ Linear.applyRow_length hWF hy
    · exact ih hys r h2

theorem Linear.applyBatch_get {L : Linear} :
    ∀ {X Y : List (List ℝ)}, L.applyBatch X = some Y →
      ∀ i (h1 : i < X.length) (h2 : i < Y.length),
        L.applyRow (X.get ⟨i, h1⟩) = some (Y.get ⟨i, h2⟩) := by
  intro X
  induction X with
  | nil =>
    intro Y h i h1 h2
    exact absurd h1 (by simp)
  | cons x xs ih =>
    intro Y h i h1 h2
    rw [Linear.applyBatch_cons_eq_some] at h
    obtain ⟨y, ys, hy, hys, rfl⟩ := h
    cases i with
    | zero => simpa using hy
    | succ n =>
      have hn1 : n < xs.length := by simpa using h1
      have hn2 : n < ys.length := by simpa using h2
      simpa using ih hys n hn1 hn2

theorem mapTensor_length (f : ℝ → ℝ) (X : List (List ℝ)) :
    (mapTensor f X).length = X.length := by
  simp [mapTensor]

theorem mapTensor_rows_length (f : ℝ → ℝ) (X : List (List ℝ)) :
    ∀ r ∈ mapTensor f X, ∃ x ∈ X, r = x.map f ∧ r.length = x.length := by
  intro r hr
  simp only [mapTensor, List.mem_map] at hr
  obtain ⟨x, hx, rfl⟩ := hr
  exact ⟨x, hx, rfl, by simp⟩

theorem mapTensor_get (f : ℝ → ℝ) (X : List (List ℝ)) (i : ℕ)
    (h1 : i < X.length) (h2 : i < (mapTensor f X).length) :
    (mapTensor f X).get ⟨i, h2⟩ = (X.get ⟨i, h1⟩).map f := by
  simp [mapTensor]

theorem mapTensor_singleton (f : ℝ → ℝ) (x : List ℝ) :
    mapTensor f [x] = [x.map f] := rfl

theorem DualHeadActorCritic.backbone_mk {net : DualHeadActorCritic}
    {X a b : List (List ℝ)} (h1 : net.layer1.applyBatch X = some a)
    (h2 : net.layer2.applyBatch (mapTensor relu a) = some b) :
    net.backbone X = some (mapTensor relu b) := by
  unfold DualHeadActorCritic.backbone
  simp [h1, h2]

theorem DualHeadActorCritic.backbone_eq_some_iff {net : DualHeadActorCritic}
    {X Z : List (List ℝ)} :
    net.backbone X = some Z ↔
      ∃ a b, net.layer1.applyBatch X = some a ∧
        net.layer2.applyBatch (mapTensor relu a) = some b ∧
        Z = mapTensor relu b := by
  unfold DualHeadActorCritic.backbone
  cases h1 : net.layer1.applyBatch X with
  | none => simp
  | some a =>
    cases h2 : net.layer2.applyBatch (mapTensor relu a) <;> simp [h2, eq_comm]

theorem DualHeadActorCritic.forward_of_backbone {net : DualHeadActorCritic}
    {X z G V : List (List ℝ)} (hz : net.backbone X = some z)
    (hG : net.gamma_head.applyBatch z = some G)
    (hV : net.value_head.applyBatch z = some V) :
    net.forward X = some (mapTensor sigmoid G, V) := by
  unfold DualHeadActorCritic.forward
  simp [hz, hG, hV]

theorem DualHeadActorCritic.forward_none_of_backbone {net : DualHeadActorCritic}
    {X : List (List ℝ)} (hz : net.backbone X = none) : net.forward X = none := by
  unfold DualHeadActorCritic.forward
  rw [hz]

theorem DualHeadActorCritic.forward_eq_some_iff {net : DualHeadActorCritic}
    {X g v : List (List ℝ)} :
    net.forward X = some (g, v) ↔
      ∃ z G, net.backbone X = some z ∧ net.gamma_head.applyBatch z = some G ∧
        net.value_head.applyBatch z = some v ∧ g = mapTensor sigmoid G := by
  unfold DualHeadActorCritic.forward
  cases hz : net.backbone X with
  | none => simp
  | some z =>
    cases hG : net.gamma_head.applyBatch z with
    | none => simp [hG]
    | some G =>
      cases hV : net.value_head.applyBatch z with
      | none => simp [hG, hV]
      | some V =>
        simp only [hG, hV, Option.some.injEq, Prod.mk.injEq]
        constructor
        · rintro ⟨hg, hv⟩
          exact ⟨z, G, rfl, hG, hv ▸ hV, hg.symm⟩
        · rintro ⟨z2, G2, hz2, hG2, hv2, hg2⟩
          obtain rfl : z = z2 := by simpa using hz2
          rw [hG] at hG2
          obtain rfl : G = G2 := Option.some.inj hG2
          rw [hV] at hv2
          exact ⟨hg2.symm, Option.some.inj hv2⟩

theorem DualHeadActorCritic.backbone_rows_length {net : DualHeadActorCritic}
    (hwf : net.WF) {X Z : List (List ℝ)} (hz : net.backbone X = some Z) :
    ∀ r ∈ Z, r.length = net.hidden := by
  obtain ⟨a, b, h1, h2, rfl⟩ := DualHeadActorCritic.backbone_eq_some_iff.mp hz
  intro r hr
  obtain ⟨x, hx, rfl, hlen⟩ := mapTensor_rows_length relu b r hr
  rw [hlen]
  rw [Linear.applyBatch_rows_length hwf.2.2.2.1 h2 x hx, hwf.2.2.2.2.2.1]

theorem dot_of_zero_row {w : List ℝ} (h : ∀ a ∈ w, a = 0) :
    ∀ x : List ℝ, dot w x = 0 := by
  induction w with
  | nil => intro x; simp [dot]
  | cons a w ih =>
    intro x
    cases x with
    | nil => simp [dot]
    | cons b x =>
      have ha : a = 0 := h a (by simp)
      have hw : dot w x = 0 := ih (fun c hc => h c (by simp [hc])) x
      simp only [dot, List.zipWith_cons_cons, List.sum_cons] at hw ⊢
      rw [ha, hw, zero_mul, add_zero]

theorem zipWith_dot_zero (x : List ℝ) :
    ∀ (ws : List (List ℝ)) (bs : List ℝ),
      (∀ w ∈ ws, ∀ a ∈ w, a = 0) → ws.length = bs.length →
      List.zipWith (fun w b => dot w x + b) ws bs = bs := by
  intro ws
  induction ws with
  | nil =>
    intro bs h hlen
    cases bs with
    | nil => rfl
    | cons b bs => simp at hlen
  | cons w ws ih =>
    intro bs h hlen
    cases bs with
    | nil => simp at hlen
    | cons b bs =>
      have hz : dot w x = 0 := dot_of_zero_row (h w (by simp)) x
      simp only [List.zipWith_cons_cons, hz, zero_add, List.cons.injEq, true_and]
      exact ih bs (fun u hu c hc => h u (by simp [hu]) c hc) (by simpa using hlen)

theorem Linear.applyRow_zero_weights {L : Linear} (hWF : L.WF)
    (hzero : ∀ w ∈ L.weight, ∀ a ∈ w, a = 0) {x : List ℝ}
    (hx : x.length = L.inF) : L.applyRow x = some L.bias := by
  unfold Linear.applyRow
  rw [if_pos hx]
  exact congrArg some
    (zipWith_dot_zero x L.weight L.bias hzero (hWF.1.trans hWF.2.2.symm))

theorem Linear.applyBatch_const {L : Linear} {c : List ℝ} :
    ∀ {X : List (List ℝ)}, (∀ x ∈ X, L.applyRow x = some c) →
      L.applyBatch X = some (List.replicate X.length c) := by
  intro X
  induction X with
  | nil => intro _; rfl
  | cons x xs ih =>
    intro h
    rw [Linear.applyBatch_cons_eq_some]
    exact ⟨c, List.replicate xs.length c, h x (by simp),
      ih (fun u hu => h u (by simp [hu])), by simp [List.replicate_succ]⟩

theorem mapTensor_replicate (f : ℝ → ℝ) (n : ℕ) (r : List ℝ) :
    mapTensor f (List.replicate n r) = List.replicate n (r.map f) := by
  simp [mapTensor]

theorem DualHeadActorCritic.backbone_congr {net net' : DualHeadActorCritic}
    (h1 : net.layer1 = net'.layer1) (h2 : net.layer2 = net'.layer2)
    (X : List (List ℝ)) : net.backbone X = net'.backbone X := by
  unfold DualHeadActorCritic.backbone
  rw [h1, h2]

theorem netV_wf : netV.WF := by
  refine ⟨⟨rfl, ?_, rfl⟩, rfl, rfl, ⟨rfl, ?_, rfl⟩, rfl, rfl,
    ⟨rfl, ?_, rfl⟩, rfl, rfl, ⟨rfl, ?_, rfl⟩, rfl, rfl⟩ <;>
  · intro w hw
    simp only [netV, zeroLinear, List.mem_singleton] at hw
    simp [hw, netV, zeroLinear]

theorem sigmoid_pos (x : ℝ) : 0 < sigmoid x := by
  unfold sigmoid
  positivity

theorem sigmoid_lt_one (x : ℝ) : sigmoid x < 1 := by
  unfold sigmoid
  rw [div_lt_one (by positivity)]
  linarith [Real.exp_pos (-x)]

/-! ## The claims -/

/-- C1: for every input batch of shape (B, obs_dim) with B ≥ 1, `forward`
equals the reference composition of the specification: backbone layer 1,
ReLU, backbone layer 2, ReLU, producing a shared `z`; γ = sigmoid of the
γ-head on `z`; V = the value-head on `z` with no activation. -/
theorem forward_matches_reference (net : DualHeadActorCritic)
    (X : List (List ℝ)) (hwf : net.WF)
    (hrows : ∀ x ∈ X, x.length = net.obs_dim) (hB : 1 ≤ X.length) :
    net.forward X = referenceForward net X := by
  unfold DualHeadActorCritic.forward DualHeadActorCritic.backbone referenceForward
  cases h1 : net.layer1.applyBatch X with
  | none => rfl
  | some a =>
    cases h2 : net.layer2.applyBatch (mapTensor relu a) <;> simp [h2]

theorem forward_matches_reference_witness :
    netZ.forward [[(0 : ℝ)]] = referenceForward netZ [[(0 : ℝ)]] :=
  forward_matches_reference netZ [[(0 : ℝ)]] netZ_wf
    (by intro x hx; rw [List.mem_singleton] at hx; rw [hx]; rfl)
    (by decide)

/-- C2: every entry of the γ component returned by `forward` lies strictly
between 0 and 1: it is never exactly 0 and never exactly 1 (sigmoid never
attains 0 or 1 at finite arguments). -/
theorem gamma_strictly_between_zero_one {net : DualHeadActorCritic}
    {X g v : List (List ℝ)} (h : net.forward X = some (g, v)) :
    ∀ r ∈ g, ∀ a ∈ r, 0 < a ∧ a < 1 := by
  obtain ⟨z, G, hz, hG, hV, rfl⟩ := DualHeadActorCritic.forward_eq_some_iff.mp h
  intro r hr a ha
  obtain ⟨x, hx, rfl, hlen⟩ := mapTensor_rows_length sigmoid G r hr
  obtain ⟨b, hb, rfl⟩ := List.mem_map.mp ha
  exact ⟨sigmoid_pos b, sigmoid_lt_one b⟩

theorem gamma_strictly_between_zero_one_witness :
    0 < sigmoid 0 ∧ sigmoid 0 < 1 :=
  gamma_strictly_between_zero_one forward_netZ_eval
    [sigmoid 0] (List.mem_singleton.mpr rfl)
    (sigmoid 0) (List.mem_singleton.mpr rfl)

/-- C4: `forward` is deterministic — with identical parameters and
identical input, two calls return identical output pairs. -/
theorem forward_deterministic (net1 net2 : DualHeadActorCritic)
    (X1 X2 : List (List ℝ)) (hnet : net1 = net2) (hX : X1 = X2) :
    net1.forward X1 = net2.forward X2 := by
  rw [hnet, hX]

theorem forward_deterministic_witness :
    netZ.forward [[(0 : ℝ)]] = netZ.forward [[(0 : ℝ)]] :=
  forward_deterministic netZ netZ [[(0 : ℝ)]] [[(0 : ℝ)]] rfl rfl

/-- C6: calling `forward` never mutates the network's parameters — after a
call, every weight matrix and bias vector of the backbone layers, the
γ-head and the value head equals its value before the call. -/
theorem forwardCall_preserves_parameters (net : DualHeadActorCritic)
    (X : List (List ℝ)) :
    (net.forwardCall X).1.layer1.weight = net.layer1.weight ∧
    (net.forwardCall X).1.layer1.bias = net.layer1.bias ∧
    (net.forwardCall X).1.layer2.weight = net.layer2.weight ∧
    (net.forwardCall X).1.layer2.bias = net.layer2.bias ∧
    (net.forwardCall X).1.gamma_head.weight = net.gamma_head.weight ∧
    (net.forwardCall X).1.gamma_head.bias = net.gamma_head.bias ∧
    (net.forwardCall X).1.value_head.weight = net.value_head.weight ∧
    (net.forwardCall X).1.value_head.bias = net.value_head.bias :=
  ⟨rfl, rfl, rfl, rfl, rfl, rfl, rfl, rfl⟩

/-- C10: `forward` imposes no check that B ≥ 1: on the empty batch of
shape (0, obs_dim) it succeeds, returning γ and V both the empty (0, 1)
tensor. -/
theorem forward_empty_batch (net : DualHeadActorCritic) :
    net.forward [] = some ([], []) := rfl

/-- C3: on a well-formed network and a batch of B ≥ 1 rows of length
obs_dim, `forward` returns a pair (γ, V) where γ has shape (B, 1) and V has
shape (B, 1); the output batch size equals the input batch size. -/
theorem forward_output_shapes (net : DualHeadActorCritic) (X : List (List ℝ))
    (hwf : net.WF) (hrows : ∀ x ∈ X, x.length = net.obs_dim)
    (hB : 1 ≤ X.length) :
    ∃ g v, net.forward X = some (g, v) ∧ g.length = X.length ∧
      (∀ r ∈ g, r.length = 1) ∧ v.length = X.length ∧ (∀ r ∈ v, r.length = 1) := by
  obtain ⟨w1, e1, e2, w2, e3, e4, wg, e5, e6, wv, e7, e8⟩ := hwf
  have h1s : (net.layer1.applyBatch X).isSome := by
    rw [Linear.applyBatch_isSome_iff]
    intro x hx
    rw [hrows x hx, e1]
  obtain ⟨a, h1⟩ := Option.isSome_iff_exists.mp h1s
  have ha : ∀ r ∈ a, r.length = net.hidden := by
    intro r hr
    rw [Linear.applyBatch_rows_length w1 h1 r hr, e2]
  have hra : ∀ r ∈ mapTensor relu a, r.length = net.hidden := by
    intro r hr
    obtain ⟨x, hx, rfl, hlen⟩ := mapTensor_rows_length relu a r hr
    rw [hlen]
    exact ha x hx
  have h2s : (net.layer2.applyBatch (mapTensor relu a)).isSome := by
    rw [Linear.applyBatch_isSome_iff]
    intro x hx
    rw [hra x hx, e3]
  obtain ⟨b, h2⟩ := Option.isSome_iff_exists.mp h2s
  have hzb : ∀ r ∈ mapTensor relu b, r.length = net.hidden := by
    intro r hr
    obtain ⟨x, hx, rfl, hlen⟩ := mapTensor_rows_length relu b r hr
    rw [hlen, Linear.applyBatch_rows_length w2 h2 x hx]
    exact e4
  have hGs : (net.gamma_head.applyBatch (mapTensor relu b)).isSome := by
    rw [Linear.applyBatch_isSome_iff]
    intro x hx
    rw [hzb x hx, e5]
  obtain ⟨G, hG⟩ := Option.isSome_iff_exists.mp hGs
  have hVs : (net.value_head.applyBatch (mapTensor relu b)).isSome := by
    rw [Linear.applyBatch_isSome_iff]
    intro x hx
    rw [hzb x hx, e7]
  obtain ⟨V, hV⟩ := Option.isSome_iff_exists.mp hVs
  have la : a.length = X.length := Linear.applyBatch_length h1
  have lb : b.length = a.length :=
    (Linear.applyBatch_length h2).trans (mapTensor_length relu a)
  have lG : G.length = b.length :=
    (Linear.applyBatch_length hG).trans (mapTensor_length relu b)
  have lV : V.length = b.length :=
    (Linear.applyBatch_length hV).trans (mapTensor_length relu b)
  refine ⟨mapTensor sigmoid G, V,
    DualHeadActorCritic.forward_of_backbone (DualHeadActorCritic.backbone_mk h1 h2) hG hV,
    ?_, ?_, ?_, ?_⟩
  · rw [mapTensor_length, lG, lb, la]
  · intro r hr
    obtain ⟨x, hx, rfl, hlen⟩ := mapTensor_rows_length sigmoid G r hr
    rw [hlen, Linear.applyBatch_rows_length wg hG x hx]
    exact e6
  · rw [lV, lb, la]
  · intro r hr
    rw [Linear.applyBatch_rows_length wv hV r hr]
    exact e8

theorem forward_output_shapes_witness :
    ∃ g v, netZ.forward [[(0 : ℝ)]] = some (g, v) ∧
      g.length = [[(0 : ℝ)]].length ∧ (∀ r ∈ g, r.length = 1) ∧
      v.length = [[(0 : ℝ)]].length ∧ (∀ r ∈ v, r.length = 1) :=
  forward_output_shapes netZ [[(0 : ℝ)]] netZ_wf
    (by intro x hx; rw [List.mem_singleton] at hx; rw [hx]; rfl)
    (by decide)

/-- C5: `forward` acts row-wise — whenever it succeeds on a batch, its
outputs on row i of the batch equal its outputs on the single-row batch
made of that row, for every i; no output row depends on any other row. -/
theorem forward_rowwise {net : DualHeadActorCritic} {X g v : List (List ℝ)}
    (h : net.forward X = some (g, v)) :
    g.length = X.length ∧ v.length = X.length ∧
    ∀ i (hiX : i < X.length) (hig : i < g.length) (hiv : i < v.length),
      net.forward [X.get ⟨i, hiX⟩] = some ([g.get ⟨i, hig⟩], [v.get ⟨i, hiv⟩]) := by
  obtain ⟨z, G, hz, hG, hV, rfl⟩ := DualHeadActorCritic.forward_eq_some_iff.mp h
  obtain ⟨a, b, h1, h2, rfl⟩ := DualHeadActorCritic.backbone_eq_some_iff.mp hz
  have la : a.length = X.length := Linear.applyBatch_length h1
  have lb : b.length = a.length :=
    (Linear.applyBatch_length h2).trans (mapTensor_length relu a)
  have lG : G.length = b.length :=
    (Linear.applyBatch_length hG).trans (mapTensor_length relu b)
  have lv : v.length = b.length :=
    (Linear.applyBatch_length hV).trans (mapTensor_length relu b)
  refine ⟨by rw [mapTensor_length, lG, lb, la], by rw [lv, lb, la], ?_⟩
  intro i hiX hig hiv
  have hia : i < a.length := by rw [la]; exact hiX
  have hira : i < (mapTensor relu a).length := by rw [mapTensor_length, la]; exact hiX
  have hib : i < b.length := by rw [lb]; exact hia
  have hiz : i < (mapTensor relu b).length := by rw [mapTensor_length]; exact hib
  have hiG : i < G.length := by rw [lG]; exact hib
  have s1 : net.layer1.applyBatch [X.get ⟨i, hiX⟩] = some [a.get ⟨i, hia⟩] :=
    Linear.applyBatch_singleton (Linear.applyBatch_get h1 i hiX hia)
  have hgetra : (mapTensor relu a).get ⟨i, hira⟩ = (a.get ⟨i, hia⟩).map relu :=
    mapTensor_get relu a i hia hira
  have s2 : net.layer2.applyBatch (mapTensor relu [a.get ⟨i, hia⟩]) = some [b.get ⟨i, hib⟩] := by
    rw [mapTensor_singleton]
    refine Linear.applyBatch_singleton ?_
    rw [← hgetra]
    exact Linear.applyBatch_get h2 i hira hib
  have hbb : net.backbone [X.get ⟨i, hiX⟩] = some (mapTensor relu [b.get ⟨i, hib⟩]) :=
    DualHeadActorCritic.backbone_mk s1 s2
  have hzget : (mapTensor relu b).get ⟨i, hiz⟩ = (b.get ⟨i, hib⟩).map relu :=
    mapTensor_get relu b i hib hiz
  have sG : net.gamma_head.applyBatch [(b.get ⟨i, hib⟩).map relu] = some [G.get ⟨i, hiG⟩] := by
    refine Linear.applyBatch_singleton ?_
    rw [← hzget]
    exact Linear.applyBatch_get hG i hiz hiG
  have sV : net.value_head.applyBatch [(b.get ⟨i, hib⟩).map relu] = some [v.get ⟨i, hiv⟩] := by
    refine Linear.applyBatch_singleton ?_
    rw [← hzget]
    exact Linear.applyBatch_get hV i hiz hiv
  have hfwd : net.forward [X.get ⟨i, hiX⟩] =
      some (mapTensor sigmoid [G.get ⟨i, hiG⟩], [v.get ⟨i, hiv⟩]) := by
    refine DualHeadActorCritic.forward_of_backbone hbb ?_ ?_
    · rw [mapTensor_singleton]
      exact sG
    · rw [mapTensor_singleton]
      exact sV
  rw [hfwd, mapTensor_singleton, mapTensor_get sigmoid G i hiG hig]

theorem forward_rowwise_witness :
    netZ.forward [[(0 : ℝ)]] = some ([[sigmoid 0]], [[(0 : ℝ)]]) :=
  (forward_rowwise forward_netZ_eval).2.2 0 (by decide) (by decide) (by decide)

/-- C7: calling `forward` on a nonempty input whose last dimension differs
from the obs_dim the network was constructed with fails with the shape
error of the underlying linear-algebra primitive (embedded as `none`)
rather than returning a result.  (An empty list of rows carries no last
dimension in this embedding, hence the nonemptiness hypothesis.) -/
theorem forward_rejects_dim_mismatch (net : DualHeadActorCritic)
    (X : List (List ℝ)) (d : ℕ) (hwf : net.WF) (hne : X ≠ [])
    (hrows : ∀ x ∈ X, x.length = d) (hd : d ≠ net.obs_dim) :
    net.forward X = none := by
  cases X with
  | nil => exact absurd rfl hne
  | cons x xs =>
    have hnot : ¬ (net.layer1.applyBatch (x :: xs)).isSome := by
      rw [Linear.applyBatch_isSome_iff]
      intro hall
      refine hd ?_
      rw [← hrows x (by simp), hall x (by simp), hwf.2.1]
    have hbatch : net.layer1.applyBatch (x :: xs) = none :=
      Option.not_isSome_iff_eq_none.mp hnot
    refine DualHeadActorCritic.forward_none_of_backbone ?_
    unfold DualHeadActorCritic.backbone
    rw [hbatch]

theorem forward_rejects_dim_mismatch_witness :
    netZ.forward [[(0 : ℝ), 0]] = none :=
  forward_rejects_dim_mismatch netZ [[(0 : ℝ), 0]] 2 netZ_wf (by simp)
    (by intro x hx; rw [List.mem_singleton] at hx; rw [hx]; rfl)
    (by decide)

/-- C8: if every weight matrix of the two backbone layers and the two heads
is identically zero (biases unchanged), then on any batch of rows of length
obs_dim, γ is sigmoid of the γ-head bias on every row and V is the
value-head bias on every row — independent of the input values. -/
theorem forward_zero_weights (net : DualHeadActorCritic) (X : List (List ℝ))
    (hwf : net.WF)
    (hw1 : ∀ w ∈ net.layer1.weight, ∀ a ∈ w, a = 0)
    (hw2 : ∀ w ∈ net.layer2.weight, ∀ a ∈ w, a = 0)
    (hwg : ∀ w ∈ net.gamma_head.weight, ∀ a ∈ w, a = 0)
    (hwv : ∀ w ∈ net.value_head.weight, ∀ a ∈ w, a = 0)
    (hrows : ∀ x ∈ X, x.length = net.obs_dim) :
    net.forward X = some
      (List.replicate X.length (net.gamma_head.bias.map sigmoid),
       List.replicate X.length net.value_head.bias) := by
  obtain ⟨w1, e1, e2, w2, e3, e4, wg, e5, e6, wv, e7, e8⟩ := hwf
  have h1 : net.layer1.applyBatch X = some (List.replicate X.length net.layer1.bias) :=
    Linear.applyBatch_const
      (fun x hx => Linear.applyRow_zero_weights w1 hw1 (by rw [hrows x hx, e1]))
  have hlen2 : (net.layer1.bias.map relu).length = net.layer2.inF := by
    rw [List.length_map, w1.2.2, e2, e3]
  have h2 : net.layer2.applyBatch (mapTensor relu (List.replicate X.length net.layer1.bias)) =
      some (List.replicate X.length net.layer2.bias) := by
    rw [mapTensor_replicate]
    have h : net.layer2.applyBatch (List.replicate X.length (net.layer1.bias.map relu)) =
        some (List.replicate (List.replicate X.length (net.layer1.bias.map relu)).length
          net.layer2.bias) :=
      Linear.applyBatch_const (fun x hx => by
        rw [List.eq_of_mem_replicate hx]
        exact Linear.applyRow_zero_weights w2 hw2 hlen2)
    rwa [List.length_replicate] at h
  have hbb := DualHeadActorCritic.backbone_mk h1 h2
  rw [mapTensor_replicate] at hbb
  have hlenh : (net.layer2.bias.map relu).length = net.hidden := by
    rw [List.length_map, w2.2.2, e4]
  have hG : net.gamma_head.applyBatch (List.replicate X.length (net.layer2.bias.map relu)) =
      some (List.replicate X.length net.gamma_head.bias) := by
    have h : net.gamma_head.applyBatch (List.replicate X.length (net.layer2.bias.map relu)) =
        some (List.replicate (List.replicate X.length (net.layer2.bias.map relu)).length
          net.gamma_head.bias) :=
      Linear.applyBatch_const (fun x hx => by
        rw [List.eq_of_mem_replicate hx]
        exact Linear.applyRow_zero_weights wg hwg (by rw [hlenh, e5]))
    rwa [List.length_replicate] at h
  have hV : net.value_head.applyBatch (List.replicate X.length (net.layer2.bias.map relu)) =
      some (List.replicate X.length net.value_head.bias) := by
    have h : net.value_head.applyBatch (List.replicate X.length (net.layer2.bias.map relu)) =
        some (List.replicate (List.replicate X.length (net.layer2.bias.map relu)).length
          net.value_head.bias) :=
      Linear.applyBatch_const (fun x hx => by
        rw [List.eq_of_mem_replicate hx]
        exact Linear.applyRow_zero_weights wv hwv (by rw [hlenh, e7]))
    rwa [List.length_replicate] at h
  have hfwd := DualHeadActorCritic.forward_of_backbone hbb hG hV
  rwa [mapTensor_replicate] at hfwd

theorem forward_zero_weights_witness :
    netZ.forward [[(5 : ℝ)]] = some ([[sigmoid 0]], [[(0 : ℝ)]]) :=
  forward_zero_weights netZ [[(5 : ℝ)]] netZ_wf
    (by simp [netZ, zeroLinear]) (by simp [netZ, zeroLinear])
    (by simp [netZ, zeroLinear]) (by simp [netZ, zeroLinear])
    (by intro x hx; rw [List.mem_singleton] at hx; rw [hx]; rfl)

/-- C9: head noninterference — for two well-formed networks agreeing on the
backbone, if they also agree on the γ-head then `forward` returns the same
γ on any input, and if they agree on the value head then `forward` returns
the same V; γ never depends on value-head parameters and V never depends on
γ-head parameters. -/
theorem heads_noninterference (net1 net2 : DualHeadActorCritic)
    (X : List (List ℝ)) (hwf1 : net1.WF) (hwf2 : net2.WF)
    (hb1 : net1.layer1 = net2.layer1) (hb2 : net1.layer2 = net2.layer2) :
    (net1.gamma_head = net2.gamma_head →
      Option.map Prod.fst (net1.forward X) = Option.map Prod.fst (net2.forward X)) ∧
    (net1.value_head = net2.value_head →
      Option.map Prod.snd (net1.forward X) = Option.map Prod.snd (net2.forward X)) := by
  have hbb := DualHeadActorCritic.backbone_congr hb1 hb2 X
  have hh : net1.hidden = net2.hidden := by
    rw [← hwf1.2.2.2.2.2.1, hb2, hwf2.2.2.2.2.2.1]
  cases hz : net1.backbone X with
  | none =>
    have hz2 : net2.backbone X = none := by rw [← hbb, hz]
    rw [DualHeadActorCritic.forward_none_of_backbone hz,
        DualHeadActorCritic.forward_none_of_backbone hz2]
    exact ⟨fun _ => rfl, fun _ => rfl⟩
  | some z =>
    have hz2 : net2.backbone X = some z := by rw [← hbb, hz]
    have hzrows : ∀ r ∈ z, r.length = net1.hidden :=
      DualHeadActorCritic.backbone_rows_length hwf1 hz
    have hG1s : (net1.gamma_head.applyBatch z).isSome := by
      rw [Linear.applyBatch_isSome_iff]
      intro r hr
      rw [hzrows r hr]
      exact hwf1.2.2.2.2.2.2.2.1.symm
    obtain ⟨G1, hG1⟩ := Option.isSome_iff_exists.mp hG1s
    have hG2s : (net2.gamma_head.applyBatch z).isSome := by
      rw [Linear.applyBatch_isSome_iff]
      intro r hr
      rw [hzrows r hr, hh]
      exact hwf2.2.2.2.2.2.2.2.1.symm
    obtain ⟨G2, hG2⟩ := Option.isSome_iff_exists.mp hG2s
    have hV1s : (net1.value_head.applyBatch z).isSome := by
      rw [Linear.applyBatch_isSome_iff]
      intro r hr
      rw [hzrows r hr]
      exact hwf1.2.2.2.2.2.2.2.2.2.2.1.symm
    obtain ⟨V1, hV1⟩ := Option.isSome_iff_exists.mp hV1s
    have hV2s : (net2.value_head.applyBatch z).isSome := by
      rw [Linear.applyBatch_isSome_iff]
      intro r hr
      rw [hzrows r hr, hh]
      exact hwf2.2.2.2.2.2.2.2.2.2.2.1.symm
    obtain ⟨V2, hV2⟩ := Option.isSome_iff_exists.mp hV2s
    rw [DualHeadActorCritic.forward_of_backbone hz hG1 hV1,
        DualHeadActorCritic.forward_of_backbone hz2 hG2 hV2]
    constructor
    · intro hg
      have : G1 = G2 := by
        rw [hg] at hG1
        exact Option.some.inj (hG1.symm.trans hG2)
      simp [this]
    · intro hv
      have : V1 = V2 := by
        rw [hv] at hV1
        exact Option.some.inj (hV1.symm.trans hV2)
      simp [this]

theorem heads_noninterference_witness :
    Option.map Prod.fst (netZ.forward [[(0 : ℝ)]]) =
      Option.map Prod.fst (netV.forward [[(0 : ℝ)]]) :=
  (heads_noninterference netZ netV [[(0 : ℝ)]] netZ_wf netV_wf rfl rfl).1 rfl
